import Mathlib

/-
Verification of the Forth Salon compiler/interpreter in
`src/samples/forthsalon/forth.c` (lwan).

The embedding models the compilation pipeline of `forth_parse_string`
(tokenizing, `found_word`, the compile-time builtins, `inline_calls_code`,
`peephole`, `check_stack_effects`) and the threaded interpreter
(`op_number`, `op_jump_if`, `op_jump`, `op_nop`, `op_halt` and the runtime
builtins) over an exact value domain.

C `double`s are idealised by exact values: every number occurring in the
verified programs is an exact rational or a rational multiple of pi, and
all arithmetic performed on those values is exact in IEEE-754 double
precision, so exact arithmetic agrees with the C program there.  The
growable array `struct forth_code` is a `List Slot`, and the `struct hash`
word table is an association list (both utilities live outside `src/`).
-/

namespace Forth

attribute [local semireducible] Rat.add Rat.mul Rat.sub Rat.inv

/-- Idealised domain for the C `double` values of the interpreter.
`fin a b` denotes the real number `a + b * pi` (exactly representable for
the programs at hand), `inf` is IEEE positive infinity (produced by the
`/` builtin on a zero divisor), and `undef` stands for any double the
model does not track exactly; no verified program ever produces `undef`. -/
inductive FVal
  | fin (a b : ℚ)
  | inf
  | undef
deriving DecidableEq, Repr

namespace FVal

/-- Addition of idealised doubles (`+` builtin, forth.c:1298). Exact on
finite values; infinity absorbs finite operands as in IEEE-754. -/
def fadd : FVal → FVal → FVal
  | fin a b, fin c d => fin (a + c) (b + d)
  | inf, fin _ _ => inf
  | fin _ _, inf => inf
  | inf, inf => inf
  | _, _ => undef

/-- Subtraction of idealised doubles (`-` builtin, forth.c:1319):
the C code pushes `POP_D() - v` where `v` is the first pop (top). -/
def fsub : FVal → FVal → FVal
  | fin a b, fin c d => fin (a - c) (b - d)
  | inf, fin _ _ => inf
  | _, _ => undef

/-- Multiplication of idealised doubles (`*` builtin, forth.c:1313).
A product is tracked only when at least one factor is pi-free (otherwise
a pi-squared term appears, which the model does not represent). -/
def fmul : FVal → FVal → FVal
  | fin a b, fin c d =>
    if b = 0 then fin (a * c) (a * d)
    else if d = 0 then fin (a * c) (b * c)
    else undef
  | inf, inf => inf
  | inf, fin a b => if b = 0 ∧ 0 < a then inf else undef
  | fin a b, inf => if b = 0 ∧ 0 < a then inf else undef
  | _, _ => undef

/-- Raw division of idealised doubles, used where the C code divides
without a zero test (the fused ` div2` builtin, forth.c:1482, and the
nonzero-divisor path of `/`).  Tracked only for a nonzero pi-free
divisor. -/
def fdivRaw : FVal → FVal → FVal
  | fin a b, fin c d => if d = 0 ∧ c ≠ 0 then fin (a / c) (b / c) else undef
  | _, _ => undef

/-- Semantics of `pow(fabs x, y)` (`**` builtin, forth.c:1352), tracked
exactly only for pi-free base and a non-negative integer exponent. -/
def fpowAbs : FVal → FVal → FVal
  | fin a b, fin c d =>
    if b = 0 ∧ d = 0 ∧ c.den = 1 ∧ 0 ≤ c.num then fin (|a| ^ c.num.toNat) 0
    else undef
  | _, _ => undef

/-- Comparison `x >= y` of idealised doubles (`>=` builtin, forth.c:1271),
pushing `1.0` for true and `0.0` for false.  Decided exactly when both
values carry the same pi multiple. -/
def fge : FVal → FVal → FVal
  | fin a b, fin c d =>
    if b = d then (if c ≤ a then fin 1 0 else fin 0 0) else undef
  | inf, fin _ _ => fin 1 0
  | fin _ _, inf => fin 0 0
  | inf, inf => fin 1 0
  | _, _ => undef

end FVal

/-- Identifiers of the runtime builtins of the C catalog that the verified
claims touch: every builtin referenced by a peephole rewrite rule plus the
words appearing in the claims' programs.  (The full C catalog has further
builtins — `sin`, `mod`, the R-stack words, the input stubs … — that no
claim mentions; they are independent entries of the same static table.) -/
inductive Bi
  | x | pi | add | sub | mul | div | powstar | dup | swap | nrot | ge | drop
  | fma | multpi | multhalfpi | mult2 | pow2 | div2 | dupdup | nrotswap
  | geswap
deriving DecidableEq, Repr

namespace Bi

/-- Name of a builtin as registered in the word table (`BUILTIN(name, …)`
declarations, forth.c:1006-1498).  Fused builtins carry a leading space
("private" names, unreachable from source text). -/
def name : Bi → String
  | .x => "x"
  | .pi => "pi"
  | .add => "+"
  | .sub => "-"
  | .mul => "*"
  | .div => "/"
  | .powstar => "**"
  | .dup => "dup"
  | .swap => "swap"
  | .nrot => "-rot"
  | .ge => ">="
  | .drop => "drop"
  | .fma => " fma"
  | .multpi => " multpi"
  | .multhalfpi => " multhalfpi"
  | .mult2 => " mult2"
  | .pow2 => " pow2"
  | .div2 => " div2"
  | .dupdup => " dupdup"
  | .nrotswap => " -rotswap"
  | .geswap => " >=swap"

/-- Declared D-stack pushes (first argument of `BUILTIN(name, pushes,
pops)` in forth.c). -/
def dPushes : Bi → Int
  | .x => 1 | .pi => 1
  | .add => 1 | .sub => 1 | .mul => 1 | .div => 1 | .powstar => 1
  | .dup => 2 | .swap => 2 | .nrot => 3 | .ge => 1 | .drop => 0
  | .fma => 1 | .multpi => 1 | .multhalfpi => 1 | .mult2 => 1 | .pow2 => 1
  | .div2 => 1 | .dupdup => 4 | .nrotswap => 3 | .geswap => 2

/-- Declared D-stack pops (second argument of `BUILTIN(name, pushes,
pops)` in forth.c). -/
def dPops : Bi → Int
  | .x => 0 | .pi => 0
  | .add => 2 | .sub => 2 | .mul => 2 | .div => 2 | .powstar => 2
  | .dup => 1 | .swap => 2 | .nrot => 3 | .ge => 2 | .drop => 1
  | .fma => 3 | .multpi => 1 | .multhalfpi => 1 | .mult2 => 1 | .pow2 => 1
  | .div2 => 1 | .dupdup => 1 | .nrotswap => 3 | .geswap => 3

/-- Declared R-stack pushes; none of the embedded builtins touches the
R stack (the C catalog's R-stack words are not needed by any claim). -/
def rPushes : Bi → Int := fun _ => 0

/-- Declared R-stack pops; zero for every embedded builtin. -/
def rPops : Bi → Int := fun _ => 0

end Bi

/-- Opcode stored in a callback cell of `union forth_inst`.  `number`,
`jumpIf`, `jump`, `nop`, `halt` and `evalCode` are the static dispatch
routines `op_number` … `op_eval_code`; `builtin b` is the callback of a
catalog builtin.  `find_builtin_by_callback` succeeds exactly on the
`builtin` case (the `op_*` routines are not members of the builtin
sections). -/
inductive OpCode
  | number | jumpIf | jump | nop | halt | evalCode
  | builtin (b : Bi)
deriving DecidableEq, Repr

/-- One cell of a code block (`union forth_inst`): a callback, a number
immediate, a pc immediate, or a reference to a user word's code block
(the `.code` member written next to `op_eval_code`; the C stores a pointer
to the word's growable code array, modelled here by the word's name,
resolved in the word table when the inliner reads it). -/
inductive Slot
  | op (o : OpCode)
  | num (v : FVal)
  | pc (n : ℕ)
  | ref (name : String)
deriving DecidableEq, Repr

/-- Runtime variable record (`struct forth_vars`); only `x` is needed by
the claims' programs (`y`, `t`, `dt` and the memory array are further
fields read only by builtins outside the embedded subset). -/
structure Vars where
  x : FVal
deriving DecidableEq, Repr

/-- Execution of one runtime builtin on the D and R stacks (lists with
the top at the head), following the `BUILTIN` bodies in forth.c.  `none`
models C undefined behaviour (popping an empty stack) and the cases where
the branch taken by the C code cannot be decided on an `undef` value. -/
def execBi : Bi → Vars → List FVal → List FVal →
    Option (List FVal × List FVal)
  | .x, v, d, r => some (v.x :: d, r)
  | .pi, _, d, r => some (.fin 0 1 :: d, r)
  | .add, _, v1 :: v2 :: t, r => some (FVal.fadd v1 v2 :: t, r)
  | .sub, _, v1 :: v2 :: t, r => some (FVal.fsub v2 v1 :: t, r)
  | .mul, _, v1 :: v2 :: t, r => some (FVal.fmul v1 v2 :: t, r)
  | .div, _, v1 :: v2 :: t, r =>
    -- forth.c:1326: `v = POP_D(); if (v == 0.0) { DROP_D(); PUSH_D(inf); }`
    some ((if v1 = .fin 0 0 then .inf else FVal.fdivRaw v2 v1) :: t, r)
  | .powstar, _, v1 :: v2 :: t, r => some (FVal.fpowAbs v2 v1 :: t, r)
  | .dup, _, v1 :: t, r => some (v1 :: v1 :: t, r)
  | .swap, _, v1 :: v2 :: t, r => some (v2 :: v1 :: t, r)
  | .nrot, _, v1 :: v2 :: v3 :: t, r => some (v2 :: v3 :: v1 :: t, r)
  | .ge, _, v1 :: v2 :: t, r => some (FVal.fge v1 v2 :: t, r)
  | .drop, _, _ :: t, r => some (t, r)
  | .fma, _, m1 :: m2 :: a :: t, r =>
    some (FVal.fadd (FVal.fmul m1 m2) a :: t, r)
  | .multpi, _, v1 :: t, r => some (FVal.fmul v1 (.fin 0 1) :: t, r)
  | .multhalfpi, _, v1 :: t, r =>
    some (FVal.fmul v1 (.fin 0 (1 / 2)) :: t, r)
  | .mult2, _, v1 :: t, r => some (FVal.fmul v1 (.fin 2 0) :: t, r)
  | .pow2, _, v1 :: t, r => some (FVal.fmul v1 v1 :: t, r)
  | .div2, _, v1 :: t, r => some (FVal.fdivRaw v1 (.fin 2 0) :: t, r)
  | .dupdup, _, v1 :: t, r => some (v1 :: v1 :: v1 :: v1 :: t, r)
  | .nrotswap, _, v1 :: v2 :: v3 :: t, r => some (v3 :: v2 :: v1 :: t, r)
  | .geswap, _, v1 :: v2 :: v3 :: t, r =>
    some (v3 :: FVal.fge v1 v2 :: t, r)
  | _, _, _, _ => none

/-- Threaded interpreter (`forth_run` dispatch chain).  `ip` is the index
of the current instruction cell; `op_jump_if` and `op_jump` transfer to
`inst[pc]`, i.e. to `ip + pc` where `pc` is the immediate in the next
cell.  Fuel bounds the number of dispatches; `none` covers fuel
exhaustion and C undefined behaviour (running off the block, executing an
immediate cell, popping an empty stack, the `op_eval_code` abort). -/
def runCode : ℕ → List Slot → ℕ → Vars → List FVal → List FVal →
    Option (List FVal × List FVal)
  | 0, _, _, _, _, _ => none
  | fuel + 1, code, ip, v, d, r =>
    match code.get? ip with
    | some (.op .number) =>
      match code.get? (ip + 1) with
      | some (.num x) => runCode fuel code (ip + 2) v (x :: d) r
      | _ => none
    | some (.op .jumpIf) =>
      match d with
      | top :: d' =>
        match code.get? (ip + 1) with
        | some (.pc n) =>
          if top = .undef then none
          else if top = .fin 0 0 then runCode fuel code (ip + n) v d' r
          else runCode fuel code (ip + 2) v d' r
        | _ => none
      | [] => none
    | some (.op .jump) =>
      match code.get? (ip + 1) with
      | some (.pc n) => runCode fuel code (ip + n) v d r
      | _ => none
    | some (.op .nop) => runCode fuel code (ip + 1) v d r
    | some (.op .halt) => some (d, r)
    | some (.op .evalCode) => none
    | some (.op (.builtin b)) =>
      match execBi b v d r with
      | some (d', r') => runCode fuel code (ip + 1) v d' r'
      | none => none
    | _ => none

/-- Final bounds test of `check_stack_effects` (forth.c:272-288): both
occupancies strictly below the 32-slot capacity and non-negative. -/
def finalCheck (d r : Int) : Bool :=
  ¬ 32 ≤ d ∧ ¬ 32 ≤ r ∧ ¬ d < 0 ∧ ¬ r < 0

/-- The static stack-effect checker `check_stack_effects`
(forth.c:197-291).  It walks the block linearly with signed occupancy
counters starting at `(0, 0)`: `op_number` increments D and skips its
immediate with no bounds test; `op_jump_if` requires a nonzero D count,
decrements it and skips its immediate; `op_jump` skips its immediate;
`op_halt` and `op_nop` change nothing; for any other builtin it tests the
pop counts, applies the declared effect and only then tests the strict
capacity bound.  `false` also covers the two process-aborting paths
(`op_eval_code` after inlining, an unrecognisable callback cell). -/
def checkEffects : List Slot → Int → Int → Bool
  | [], d, r => finalCheck d r
  | [.op .number], d, r => finalCheck (d + 1) r
  | .op .number :: _ :: rest, d, r => checkEffects rest (d + 1) r
  | [.op .jumpIf], d, r => if d = 0 then false else finalCheck (d - 1) r
  | .op .jumpIf :: _ :: rest, d, r =>
    if d = 0 then false else checkEffects rest (d - 1) r
  | [.op .jump], d, r => finalCheck d r
  | .op .jump :: _ :: rest, d, r => checkEffects rest d r
  | .op .halt :: rest, d, r => checkEffects rest d r
  | .op .nop :: rest, d, r => checkEffects rest d r
  | .op .evalCode :: _, _, _ => false
  | .op (.builtin b) :: rest, d, r =>
    if d < b.dPops then false
    else if r < b.rPops then false
    else
      let d' := d - b.dPops + b.dPushes
      let r' := r - b.rPops + b.rPushes
      if 32 ≤ d' then false
      else if 32 ≤ r' then false
      else checkEffects rest d' r'
  | _ :: _, _, _ => false

/-- Identifiers of the compile-time builtins (`BUILTIN_COMPILER`
declarations, forth.c:914-995). -/
inductive CompilerBi
  | backslash | paren | colon | semicolon | cif | celse | cthen
deriving DecidableEq, Repr

/-- Entries of the compiler state's hash table: a user word owns a code
block; `builtin`/`compiler` wrap the two static builtin sections (runtime
words and compile-time words). -/
inductive Word
  | user (code : List Slot)
  | builtin (b : Bi)
  | compiler (c : CompilerBi)
deriving DecidableEq, Repr

/-- Association-list lookup standing in for `hash_find` on the word
table. -/
def findWord : List (String × Word) → String → Option Word
  | [], _ => none
  | (n, w) :: t, s => if n = s then some w else findWord t s

/-- Replace the entry of a word in the table (the C mutates the word's
code block through the `defining_word`/`main` pointers). -/
def updateWord : List (String × Word) → String → Word →
    List (String × Word)
  | [], _, _ => []
  | (n, w) :: t, s, w' =>
    if n = s then (n, w') :: t else (n, w) :: updateWord t s w'

/-- The inliner `inline_calls_code` (forth.c:741-799).  `ws` is the word
table (used to resolve the code-block reference stored after each
`op_eval_code`), `fuel` the `nested` recursion budget (100 at the top
call; a call with zero budget fails up front), `acc` the shared output
block and `js` the invocation-local jump stack of immediate-slot
indices.  Offsets are re-patched exactly as in the C code: on `op_jump`,
the popped `jump_if` immediate at index `i` is overwritten with
`len + i - 2` (`len` counts the block after the `jump` opcode cell was
appended, before its immediate); on `op_nop`, the popped immediate at
index `i` is overwritten with `len - i + 1` (`len` counts the block after
the `nop` was appended).  Both subtractions stay in range for
parser-produced blocks (pushed indices are at least 1).  `none` covers
the C failure paths (recursion limit, jump-stack overflow and underflow)
and malformed blocks whose immediates are missing, which the C reads out
of bounds.  `recurse` is the nested invocation performed for each
`op_eval_code` (with the callee's code block and its own fresh jump
stack), supplied by `inlineCode` below with a decremented budget. -/
def inlineLoop (ws : List (String × Word))
    (recurse : List Slot → List Slot → Option (List Slot)) :
    List Slot → List Slot → List ℕ → Option (List Slot)
  | [], acc, _ => some acc
  | .op .evalCode :: rest, acc, js =>
    match rest with
    | .ref nm :: rest' =>
      match findWord ws nm with
      | some (.user c) =>
        match recurse c acc with
        | some acc' => inlineLoop ws recurse rest' acc' js
        | none => none
      | _ => none
    | _ => none
  | .op .jumpIf :: rest, acc, js =>
    let acc' := acc ++ [.op .jumpIf]
    if js.length > 64 then none
    else
      match rest with
      | imm :: rest' =>
        inlineLoop ws recurse rest' (acc' ++ [imm]) (acc'.length :: js)
      | [] => none
  | .op .jump :: rest, acc, js =>
    let acc' := acc ++ [.op .jump]
    match js with
    | [] => none
    | i :: js' =>
      let acc'' := acc'.set i (.pc (acc'.length + i - 2))
      if js'.length > 64 then none
      else
        match rest with
        | imm :: rest' =>
          inlineLoop ws recurse rest' (acc'' ++ [imm]) (acc''.length :: js')
        | [] => none
  | .op .nop :: rest, acc, js =>
    let acc' := acc ++ [.op .nop]
    match js with
    | [] => none
    | i :: js' =>
      inlineLoop ws recurse rest (acc'.set i (.pc (acc'.length - i + 1))) js'
  | .op .number :: rest, acc, js =>
    match rest with
    | imm :: rest' =>
      inlineLoop ws recurse rest' (acc ++ [.op .number, imm]) js
    | [] => none
  | s :: rest, acc, js =>
    inlineLoop ws recurse rest (acc ++ [s]) js

/-- Entry of one `inline_calls_code` invocation: the `nested` budget is
tested first; each `op_eval_code` recursion runs the loop with budget
`fuel` and a fresh local jump stack. -/
def inlineCode (ws : List (String × Word)) :
    ℕ → List Slot → List Slot → List ℕ → Option (List Slot)
  | 0, _, _, _ => none
  | fuel + 1, orig, acc, js =>
    inlineLoop ws (fun c a => inlineCode ws fuel c a []) orig acc js

/-- Replace the last cell of a block (the C writes through
`last[0]` obtained from `forth_code_get_elem(code, len - 1)`). -/
def setLast (code : List Slot) (s : Slot) : List Slot :=
  code.dropLast ++ [s]

/-- One-instruction look-back rewrites, `peephole_1` (forth.c:435-501).
`b` is the incoming builtin; `code` the block emitted so far (the driver
only calls this when the block has more than one cell).  On a match the
previous opcode cell is overwritten with the fused builtin's callback and
the incoming instruction is dropped (`some` result); otherwise `none`.
The dispatch mirrors the C `streq` chain on the incoming builtin's
name. -/
def peephole1 (code : List Slot) (b : Bi) : Option (List Slot) :=
  match b with
  | .add =>
    if code.getLast? = some (.op (.builtin .mul)) then
      some (setLast code (.op (.builtin .fma)))
    else none
  | .mul =>
    -- `prev_b = find_builtin_by_callback(last[0].callback)` succeeds only
    -- on a builtin callback cell.
    if code.getLast? = some (.op (.builtin .pi)) then
      some (setLast code (.op (.builtin .multpi)))
    else none
  | .dup =>
    if code.getLast? = some (.op (.builtin .dup)) then
      some (setLast code (.op (.builtin .dupdup)))
    else none
  | .swap =>
    if code.getLast? = some (.op (.builtin .nrot)) then
      some (setLast code (.op (.builtin .nrotswap)))
    else if code.getLast? = some (.op (.builtin .ge)) then
      some (setLast code (.op (.builtin .geswap)))
    else none
  | .div2 =>
    if code.getLast? = some (.op (.builtin .multpi)) then
      some (setLast code (.op (.builtin .multhalfpi)))
    else none
  | _ => none

/-- Longer look-back rewrites, `peephole_n` (forth.c:503-585), called by
the driver only when the block has more than two cells.  The C dispatch
is an `else if` chain on the incoming builtin's name, so the second
`"/"` rule — the general constant fold `(push a) (push b) / ⇒ push a/b`
at forth.c:537-549 — is dead code: the first `"/"` rule (fused ` div2`
for the constant divisor `2.0`, forth.c:510-518) is reached for every
`/` instruction, and when its guard fails the chain is exited without
trying the fold.  Pattern guards on `last[-1]`/`last[-3]` test that the
cell holds the `op_number` callback; the immediate cells must then hold
numbers, which is always true of parser-produced blocks (the C reads
their `.number` member unconditionally). -/
def peepholeN (code : List Slot) (b : Bi) : Option (List Slot) :=
  let n := code.length
  match b with
  | .div =>
    -- first "/" rule: constant divisor 2.0 becomes the fused ` div2`,
    -- dropping the divisor's immediate cell
    if code.get? (n - 2) = some (.op .number) ∧
        code.get? (n - 1) = some (.num (.fin 2 0)) then
      some (code.take (n - 2) ++ [.op (.builtin .div2)])
    else none
  | .add =>
    if 4 ≤ n then
      match code.get? (n - 4), code.get? (n - 3),
          code.get? (n - 2), code.get? (n - 1) with
      | some (.op .number), some (.num a), some (.op .number),
          some (.num c) =>
        some (code.take (n - 3) ++ [.num (FVal.fadd a c)])
      | _, _, _, _ => none
    else none
  | .sub =>
    if 4 ≤ n then
      match code.get? (n - 4), code.get? (n - 3),
          code.get? (n - 2), code.get? (n - 1) with
      | some (.op .number), some (.num a), some (.op .number),
          some (.num c) =>
        some (code.take (n - 3) ++ [.num (FVal.fsub a c)])
      | _, _, _, _ => none
    else none
  | .mul =>
    if code.get? (n - 2) = some (.op .number) ∧
        code.get? (n - 1) = some (.num (.fin 2 0)) then
      some (code.take (n - 2) ++ [.op (.builtin .mult2)])
    else if 4 ≤ n then
      match code.get? (n - 4), code.get? (n - 3),
          code.get? (n - 2), code.get? (n - 1) with
      | some (.op .number), some (.num a), some (.op .number),
          some (.num c) =>
        some (code.take (n - 3) ++ [.num (FVal.fmul a c)])
      | _, _, _, _ => none
    else none
  | .powstar =>
    if code.get? (n - 2) = some (.op .number) ∧
        code.get? (n - 1) = some (.num (.fin 2 0)) then
      some (code.take (n - 2) ++ [.op (.builtin .pow2)])
    else none
  | .mult2 =>
    if code.get? (n - 2) = some (.op .number) then
      match code.get? (n - 1) with
      | some (.num v) => some (setLast code (.num (FVal.fmul v (.fin 2 0))))
      | _ => none
    else none
  | _ => none

/-- The peephole driver `peephole` (forth.c:587-676).  It re-emits the
block cell by cell into a fresh block, trying `peephole_1` (block longer
than one cell) then `peephole_n` (block longer than two cells) for each
catalog builtin, and re-patches branch immediates with exactly the
inliner's jump-stack discipline and patch arithmetic.  Returns the new
block and the `modified` flag.  A jump-stack overflow or underflow makes
the C `return false` from inside the loop, leaving the partially rebuilt
block in the compiler state: modelled by returning the partial block with
`modified = false`; the same pair is returned for malformed blocks whose
immediate cell is missing (unreachable from the parser). -/
def peepholeLoop : List Slot → List Slot → List ℕ → Bool →
    List Slot × Bool
  | [], acc, _, m => (acc, m)
  | .op (.builtin b) :: rest, acc, js, m =>
    match (if acc.length > 1 then peephole1 acc b else none) with
    | some acc' => peepholeLoop rest acc' js true
    | none =>
      match (if acc.length > 2 then peepholeN acc b else none) with
      | some acc' => peepholeLoop rest acc' js true
      | none => peepholeLoop rest (acc ++ [.op (.builtin b)]) js m
  | .op .jumpIf :: rest, acc, js, m =>
    let acc' := acc ++ [.op .jumpIf]
    if js.length > 64 then (acc', false)
    else
      match rest with
      | imm :: rest' =>
        peepholeLoop rest' (acc' ++ [imm]) (acc'.length :: js) m
      | [] => (acc', false)
  | .op .jump :: rest, acc, js, m =>
    let acc' := acc ++ [.op .jump]
    match js with
    | [] => (acc', false)
    | i :: js' =>
      let acc'' := acc'.set i (.pc (acc'.length + i - 2))
      if js'.length > 64 then (acc'', false)
      else
        match rest with
        | imm :: rest' =>
          peepholeLoop rest' (acc'' ++ [imm]) (acc''.length :: js') m
        | [] => (acc'', false)
  | .op .nop :: rest, acc, js, m =>
    let acc' := acc ++ [.op .nop]
    match js with
    | [] => (acc', false)
    | i :: js' =>
      peepholeLoop rest (acc'.set i (.pc (acc'.length - i + 1))) js' m
  | .op .number :: rest, acc, js, m =>
    match rest with
    | imm :: rest' => peepholeLoop rest' (acc ++ [.op .number, imm]) js m
    | [] => (acc ++ [.op .number], false)
  | s :: rest, acc, js, m => peepholeLoop rest (acc ++ [s]) js m

/-- One `peephole` pass over a block, starting from a fresh output block
and an empty local jump stack. -/
def peepholeRun (code : List Slot) : List Slot × Bool :=
  peepholeLoop code [] [] false

/-- C-locale `isspace` on an ASCII octet (space and the five control
whitespace characters 0x09-0x0D). -/
def isSpaceChar (c : Char) : Bool :=
  c.toNat = 32 ∨ (9 ≤ c.toNat ∧ c.toNat ≤ 13)

/-- C-locale `isprint` on an ASCII octet (0x20-0x7E). -/
def isPrintChar (c : Char) : Bool :=
  32 ≤ c.toNat ∧ c.toNat ≤ 126

/-- C-locale `isdigit`. -/
def isDigitChar (c : Char) : Bool :=
  48 ≤ c.toNat ∧ c.toNat ≤ 57

/-- Numeric value of a digit list (most significant first). -/
def digitsVal (l : List Char) : ℕ :=
  l.foldl (fun acc c => 10 * acc + (c.toNat - 48)) 0

/-- Modelled from the spec: `parse_number` (forth.c:361-375) wraps the C
library's `strtod`, which is outside the repository; the spec (§6)
defines number tokens as "decimal, optional sign, optional fraction,
optional exponent", valid only when the entire token is consumed.  The
token's exact rational value is returned (the verified literals are all
exactly representable doubles). -/
def parseNumber (tok : List Char) : Option ℚ :=
  let signRest : ℚ × List Char :=
    match tok with
    | '-' :: t => (-1, t)
    | '+' :: t => (1, t)
    | t => (1, t)
  let sign := signRest.1
  let ipart := signRest.2.takeWhile isDigitChar
  let r1 := signRest.2.dropWhile isDigitChar
  let fracRest : List Char × List Char :=
    match r1 with
    | '.' :: t => (t.takeWhile isDigitChar, t.dropWhile isDigitChar)
    | t => ([], t)
  let fpart := fracRest.1
  if ipart = [] ∧ fpart = [] then none
  else
    let mant : ℚ :=
      (digitsVal ipart : ℚ) + (digitsVal fpart : ℚ) / (10 ^ fpart.length)
    match fracRest.2 with
    | [] => some (sign * mant)
    | e :: t =>
      if e = 'e' ∨ e = 'E' then
        let esignRest : Int × List Char :=
          match t with
          | '-' :: u => (-1, u)
          | '+' :: u => (1, u)
          | u => (1, u)
        let edig := esignRest.2.takeWhile isDigitChar
        if edig = [] ∨ esignRest.2.dropWhile isDigitChar ≠ [] then none
        else some (sign * mant * (10 : ℚ) ^ (esignRest.1 * digitsVal edig))
      else none

/-- The compiler state `struct forth_ctx` during parsing: the word table,
the currently defining word (`none` models a NULL `defining_word`; the
main word is registered under the name `" "`, which no token can equal),
the code block of the current defining word, and the compile-time jump
stack `ctx->j` of 63 slots.  The C accesses the defining word's growable
code array through the `defining_word` pointer; `defCode` models that
aliased block directly, and it is written back into the word table
whenever the defining word changes (`:`, `;`, new-word creation) and at
the end of parsing.  While `defining = some n`, `defCode` is the code of
the word `n` and the table entry of `n` is stale. -/
structure Ctx where
  words : List (String × Word)
  defining : Option String
  defCode : List Slot
  jstack : List ℕ
deriving DecidableEq, Repr

/-- The predicate `is_inside_word_def` (forth.c:110-113):
`!defining_word || defining_word != main`. -/
def insideWordDef (ctx : Ctx) : Bool :=
  ctx.defining ≠ some " "

/-- The `EMIT` macro (forth.c:425-433): append one cell to the defining
word's code block and return its index.  `none` models appending while no
defining word exists (a NULL dereference in C, unreachable in the
verified programs). -/
def emit (ctx : Ctx) (s : Slot) : Option (Ctx × ℕ) :=
  match ctx.defining with
  | none => none
  | some _ => some ({ ctx with defCode := ctx.defCode ++ [s] },
      ctx.defCode.length)

/-- Write a pc immediate into a cell of the defining word's code block
(the back-patching writes of `builtin_else_then`, forth.c:989). -/
def patchDef (ctx : Ctx) (i : ℕ) (n : ℕ) : Ctx :=
  { ctx with defCode := ctx.defCode.set i (.pc n) }

/-- Length of the defining word's code block. -/
def defCodeLen (ctx : Ctx) : ℕ :=
  ctx.defCode.length

/-- Write the defining word's code block back into the word table (the
C needs no such step because `defining_word` points into the table). -/
def installDef (ctx : Ctx) : Ctx :=
  match ctx.defining with
  | none => ctx
  | some dn => { ctx with words := updateWord ctx.words dn (.user ctx.defCode) }

/-- The shared tail of `else` and `then` (`builtin_else_then`,
forth.c:965-992): pop an unresolved immediate index; emit `nop` (then) or
`jump` plus a fresh zero immediate pushed on the jump stack (else, with a
depth test after the pop); finally back-patch the popped immediate with
the current code length (an absolute index at parse time, re-normalised
by the inliner). -/
def builtinElseThen (ctx : Ctx) (rest : List Char) (isThen : Bool) :
    Option (Ctx × List Char) :=
  match ctx.jstack with
  | [] => none
  | i :: js' =>
    let ctx0 := { ctx with jstack := js' }
    if isThen then
      match emit ctx0 (.op .nop) with
      | none => none
      | some (ctx1, _) => some (patchDef ctx1 i (defCodeLen ctx1), rest)
    else
      match emit ctx0 (.op .jump) with
      | none => none
      | some (ctx1, _) =>
        if 63 ≤ ctx1.jstack.length then none
        else
          match emit ctx1 (.pc 0) with
          | none => none
          | some (ctx2, k) =>
            let ctx3 := { ctx2 with jstack := k :: ctx2.jstack }
            some (patchDef ctx3 i (defCodeLen ctx3), rest)

/-- Dispatch of the compile-time builtins (forth.c:914-995).  `rest` is
the remaining input after the token; the comment words scan it (`strchr`)
and fail when the delimiter is missing; `:`/`;` switch the defining word;
`if` emits `jump_if` plus a zero immediate whose index goes on the jump
stack (after the 63-deep nesting test). -/
def runCompiler (cb : CompilerBi) (ctx : Ctx) (rest : List Char) :
    Option (Ctx × List Char) :=
  match cb with
  | .backslash =>
    match rest.dropWhile (fun c => c ≠ '\n') with
    | [] => none
    | _ :: t => some (ctx, t)
  | .paren =>
    match rest.dropWhile (fun c => c ≠ ')') with
    | [] => none
    | _ :: t => some (ctx, t)
  | .colon =>
    if insideWordDef ctx then none
    else some ({ installDef ctx with defining := none, defCode := [] }, rest)
  | .semicolon =>
    if ctx.jstack ≠ [] then none
    else if ¬ insideWordDef ctx then none
    else
      match installDef ctx with
      | ctx' =>
        match findWord ctx'.words " " with
        | some (.user mc) =>
          some ({ ctx' with defining := some " ", defCode := mc }, rest)
        | _ => none
  | .cif =>
    if 63 ≤ ctx.jstack.length then none
    else
      match emit ctx (.op .jumpIf) with
      | none => none
      | some (ctx1, _) =>
        match emit ctx1 (.pc 0) with
        | none => none
        | some (ctx2, k) =>
          some ({ ctx2 with jstack := k :: ctx2.jstack }, rest)
  | .celse => builtinElseThen ctx rest false
  | .cthen => builtinElseThen ctx rest true

/-- The token handler `found_word` (forth.c:678-739): reject tokens over
64 octets; numbers emit a `(op_number, value)` pair (failing at top level
with no defining target); known words dispatch to their compile-time
callback, emit their runtime callback, or emit a
`(op_eval_code, code-reference)` pair; an unknown token while no
definition is open becomes the new defining word, and redefinition of an
existing word fails. -/
def foundWord (ctx : Ctx) (rest : List Char) (tok : List Char) :
    Option (Ctx × List Char) :=
  if tok.length > 64 then none
  else
    match parseNumber tok with
    | some q =>
      match ctx.defining with
      | none => none
      | some _ =>
        match emit ctx (.op .number) with
        | none => none
        | some (ctx1, _) =>
          match emit ctx1 (.num (.fin q 0)) with
          | none => none
          | some (ctx2, _) => some (ctx2, rest)
    | none =>
      let w := findWord ctx.words (String.mk tok)
      match ctx.defining with
      | some _ =>
        match w with
        | none => none
        | some (.compiler cb) => runCompiler cb ctx rest
        | some (.builtin b) =>
          match emit ctx (.op (.builtin b)) with
          | none => none
          | some (ctx1, _) => some (ctx1, rest)
        | some (.user _) =>
          match emit ctx (.op .evalCode) with
          | none => none
          | some (ctx1, _) =>
            match emit ctx1 (.ref (String.mk tok)) with
            | none => none
            | some (ctx2, _) => some (ctx2, rest)
      | none =>
        match w with
        | some _ => none
        | none =>
          some ({ ctx with
            words := (String.mk tok, .user []) :: ctx.words,
            defining := some (String.mk tok),
            defCode := [] }, rest)

/-- Code block of the main word (registered under the name `" "`). -/
def mainCode (ctx : Ctx) : Option (List Slot) :=
  match findWord ctx.words " " with
  | some (.user c) => some c
  | _ => none

/-- Replace the main word's code block (`ctx->main->code = new_main`,
forth.c:812), keeping the defining-word alias in step (the defining word
is main whenever this runs). -/
def setMain (ctx : Ctx) (c : List Slot) : Ctx :=
  { ctx with words := updateWord ctx.words " " (.user c), defCode := c }

/-- Tail of the finish sequence of `forth_parse_string`: run the static
stack-effect checker on the optimised block and install it as the main
word's code (forth.c:863-873). -/
def checkAndInstall (ctx : Ctx) (finalCode : List Slot) : Option Ctx :=
  if checkEffects finalCode 0 0 then some (setMain ctx finalCode) else none

/-- The finish sequence of `forth_parse_string` (forth.c:852-873): fail
if a word definition is still open; append `halt` to main; inline user
word calls with a recursion budget of 100; run the peephole pass once,
and once more if the first pass rewrote something (`if (peephole(ctx))
peephole(ctx);`); finally run the static stack-effect checker. -/
def parseFinish (ctx : Ctx) : Option Ctx :=
  if insideWordDef ctx then none
  else
    match emit ctx (.op .halt) with
    | none => none
    | some (ctx1, _) =>
      match inlineCode ctx1.words 100 ctx1.defCode [] [] with
      | none => none
      | some inlined =>
        match peepholeRun inlined with
        | (c1, modified) =>
          checkAndInstall ctx1 (if modified then (peepholeRun c1).1 else c1)

/-- The tokenizing loop of `forth_parse_string` (forth.c:823-850): skip
ASCII whitespace; read a maximal run of non-space octets, failing on a
non-printable octet; an empty token at end of input finishes parsing;
otherwise hand the token to `found_word` and, unless the returned
position is the end of input, skip one octet and continue.  The fuel is
one more than the input length, which bounds the number of iterations
(each iteration past the first consumes input). -/
def parseLoop : ℕ → Ctx → List Char → Option Ctx
  | 0, _, _ => none
  | _ + 1, ctx, [] => some ctx
  | fuel + 1, ctx, input =>
    let rest := input.dropWhile isSpaceChar
    let tok := rest.takeWhile (fun c => ¬ isSpaceChar c)
    let after := rest.dropWhile (fun c => ¬ isSpaceChar c)
    if ¬ tok.all isPrintChar then none
    else if tok = [] then some ctx
    else
      match foundWord ctx after tok with
      | none => none
      | some (ctx', rest') =>
        match rest' with
        | [] => some ctx'
        | _ :: t => parseLoop fuel ctx' t

/-- Entry point `forth_parse_string` (forth.c:817-874) on a source
string: reset the jump stack, run the tokenizing loop (`some` is the
`finish` label being reached with the given state) and then the finish
sequence. -/
def forthParseString (ctx : Ctx) (s : String) : Option Ctx :=
  (parseLoop (s.data.length + 1) { ctx with jstack := [] } s.data).bind
    parseFinish

/-- Hash-table entries of the registered builtins and compile-time
builtins (`register_builtins`, forth.c:1502-1519), restricted to the
embedded subset. -/
def registeredWords : List (String × Word) :=
  ([Bi.x, .pi, .add, .sub, .mul, .div, .powstar, .dup, .swap, .nrot,
      .ge, .drop, .fma, .multpi, .multhalfpi, .mult2, .pow2, .div2,
      .dupdup, .nrotswap, .geswap].map (fun b => (b.name, Word.builtin b)))
    ++ [("\\", .compiler .backslash), ("(", .compiler .paren),
      (":", .compiler .colon), (";", .compiler .semicolon),
      ("if", .compiler .cif), ("else", .compiler .celse),
      ("then", .compiler .cthen)]

/-- The word table after `forth_new` (forth.c:1530-1556): the main word
(name `" "`, empty code) followed by the registered builtins. -/
def initWords : List (String × Word) :=
  (" ", .user []) :: registeredWords

/-- A freshly created compiler state (`forth_new`): the defining word is
the main word, whose code block is empty. -/
def initCtx : Ctx :=
  { words := initWords, defining := some " ", defCode := [], jstack := [] }

/-! Program-specific data for the verified claims: the compiler state at
the end of tokenization (before the `halt`/inline/peephole/check finish
sequence) and the final main code block of each concrete program,
obtained by evaluating the embedding and checked against it by `decide`
in the theorems below. -/

/-- Tokenized state of `0 if 1 else 2 then`. -/
def c1Tok0 : Ctx :=
  { words := initWords, defining := some " ",
    defCode := [.op .number, .num (.fin 0 0), .op .jumpIf, .pc 8,
      .op .number, .num (.fin 1 0), .op .jump, .pc 11,
      .op .number, .num (.fin 2 0), .op .nop],
    jstack := [] }

/-- Final main code of `0 if 1 else 2 then`.  The `jump_if` immediate is
`8`, which the interpreter resolves to slot `2 + 8 = 10`, the `nop` — not
slot 8, the start of the else branch. -/
def c1Code0 : List Slot :=
  [.op .number, .num (.fin 0 0), .op .jumpIf, .pc 8,
   .op .number, .num (.fin 1 0), .op .jump, .pc 5,
   .op .number, .num (.fin 2 0), .op .nop, .op .halt]

/-- Tokenized state of `1 if 1 else 2 then`. -/
def c1Tok1 : Ctx :=
  { words := initWords, defining := some " ",
    defCode := [.op .number, .num (.fin 1 0), .op .jumpIf, .pc 8,
      .op .number, .num (.fin 1 0), .op .jump, .pc 11,
      .op .number, .num (.fin 2 0), .op .nop],
    jstack := [] }

/-- Final main code of `1 if 1 else 2 then`. -/
def c1Code1 : List Slot :=
  [.op .number, .num (.fin 1 0), .op .jumpIf, .pc 8,
   .op .number, .num (.fin 1 0), .op .jump, .pc 5,
   .op .number, .num (.fin 2 0), .op .nop, .op .halt]

/-- Tokenized state of `0 0 0 0 0 0 if 1 else 2 then`. -/
def c2Tok : Ctx :=
  { words := initWords, defining := some " ",
    defCode := [.op .number, .num (.fin 0 0), .op .number, .num (.fin 0 0),
      .op .number, .num (.fin 0 0), .op .number, .num (.fin 0 0),
      .op .number, .num (.fin 0 0), .op .number, .num (.fin 0 0),
      .op .jumpIf, .pc 18, .op .number, .num (.fin 1 0),
      .op .jump, .pc 21, .op .number, .num (.fin 2 0), .op .nop],
    jstack := [] }

/-- Final main code of `0 0 0 0 0 0 if 1 else 2 then`: 22 slots, with the
`jump_if` at slot 12 whose immediate 28 resolves to slot 40, outside the
block. -/
def c2Code : List Slot :=
  [.op .number, .num (.fin 0 0), .op .number, .num (.fin 0 0),
   .op .number, .num (.fin 0 0), .op .number, .num (.fin 0 0),
   .op .number, .num (.fin 0 0), .op .number, .num (.fin 0 0),
   .op .jumpIf, .pc 28, .op .number, .num (.fin 1 0),
   .op .jump, .pc 5, .op .number, .num (.fin 2 0), .op .nop, .op .halt]

/-- Source of the shipped sample program (forth.c:1618-1620). -/
def c3Src : String :=
  ": nice 60 5 4 + + ; : juanita 400 10 5 5 + + + ; x if nice else juanita then 2 * 4 / 2 *"

/-- Tokenized state of the sample program: the two user words are
defined, and main still calls them through `op_eval_code` pairs. -/
def c3Tok : Ctx :=
  { words := ("juanita", .user [.op .number, .num (.fin 400 0),
      .op .number, .num (.fin 10 0), .op .number, .num (.fin 5 0),
      .op .number, .num (.fin 5 0), .op (.builtin .add),
      .op (.builtin .add), .op (.builtin .add)]) ::
    ("nice", .user [.op .number, .num (.fin 60 0), .op .number,
      .num (.fin 5 0), .op .number, .num (.fin 4 0), .op (.builtin .add),
      .op (.builtin .add)]) :: initWords,
    defining := some " ",
    defCode := [.op (.builtin .x), .op .jumpIf, .pc 7, .op .evalCode,
      .ref "nice", .op .jump, .pc 10, .op .evalCode, .ref "juanita",
      .op .nop, .op .number, .num (.fin 2 0), .op (.builtin .mul),
      .op .number, .num (.fin 4 0), .op (.builtin .div),
      .op .number, .num (.fin 2 0), .op (.builtin .mul)],
    jstack := [] }

/-- Final main code of the sample program after inlining and two
peephole passes: the user-word calls are inlined and constant-folded to
69 and 420, and the two `2 *` occurrences are fused to ` mult2`. -/
def c3Code : List Slot :=
  [.op (.builtin .x), .op .jumpIf, .pc 6, .op .number, .num (.fin 69 0),
   .op .jump, .pc 5, .op .number, .num (.fin 420 0), .op .nop,
   .op (.builtin .mult2), .op .number, .num (.fin 4 0),
   .op (.builtin .div), .op (.builtin .mult2), .op .halt]

/-- Tokenized state of `1 0 /`. -/
def c6Tok : Ctx :=
  { words := initWords, defining := some " ",
    defCode := [.op .number, .num (.fin 1 0), .op .number, .num (.fin 0 0),
      .op (.builtin .div)],
    jstack := [] }

/-- Final main code of `1 0 /`: the constant division is not folded (the
fold rule for `/` is dead code), so the runtime `/` builtin runs. -/
def c6Code : List Slot :=
  [.op .number, .num (.fin 1 0), .op .number, .num (.fin 0 0),
   .op (.builtin .div), .op .halt]

/-- Tokenized state of `2 pi *`. -/
def c8Tok : Ctx :=
  { words := initWords, defining := some " ",
    defCode := [.op .number, .num (.fin 2 0), .op (.builtin .pi),
      .op (.builtin .mul)],
    jstack := [] }

/-- Final main code of `2 pi *`: `pi *` is fused to ` multpi`; the
stream is a push of 2.0 followed by the fused builtin, not a single push
of 2·pi. -/
def c8Code : List Slot :=
  [.op .number, .num (.fin 2 0), .op (.builtin .multpi), .op .halt]

/-- Code block consisting of `k` `(op_number, 1.0)` pairs. -/
def numPairs : ℕ → List Slot
  | 0 => []
  | k + 1 => .op .number :: .num (.fin 1 0) :: numPairs k

/-- Source pushing 32 ones and dropping one of them. -/
def c4Src : String :=
  "1 1 1 1 1 1 1 1 1 1 1 1 1 1 1 1 1 1 1 1 1 1 1 1 1 1 1 1 1 1 1 1 drop"

/-- Tokenized state of the 32-push program. -/
def c4Tok : Ctx :=
  { words := initWords, defining := some " ",
    defCode := numPairs 32 ++ [.op (.builtin .drop)],
    jstack := [] }

/-- Positional well-formedness needed by the inliner theorem: walking
the block the way the inliner does, no immediate cell following an
`op_jump_if`, `op_jump` or `op_number` opcode is itself the
`op_eval_code` callback cell.  Parser-emitted immediates are number, pc
or code-reference cells, so every parser-produced block satisfies
this. -/
def noEvalImms : List Slot → Bool
  | [] => true
  | .op .evalCode :: rest =>
    match rest with
    | _ :: rest' => noEvalImms rest'
    | [] => true
  | .op .jumpIf :: rest =>
    match rest with
    | imm :: rest' => imm ≠ Slot.op .evalCode && noEvalImms rest'
    | [] => true
  | .op .jump :: rest =>
    match rest with
    | imm :: rest' => imm ≠ Slot.op .evalCode && noEvalImms rest'
    | [] => true
  | .op .number :: rest =>
    match rest with
    | imm :: rest' => imm ≠ Slot.op .evalCode && noEvalImms rest'
    | [] => true
  | _ :: rest => noEvalImms rest

/-- Every user word installed in a word table has immediates clean in
the sense of `noEvalImms`. -/
def wordsOk (ws : List (String × Word)) : Bool :=
  ws.all fun p =>
    match p.2 with
    | .user c => noEvalImms c
    | _ => true

/-- Main block of the sample program right after the inlining phase
(before the peephole passes): the two `op_eval_code` call pairs are
replaced by the callee bodies, with the branch immediates re-patched. -/
def c3Inlined : List Slot :=
  [.op (.builtin .x), .op .jumpIf, .pc 12,
   .op .number, .num (.fin 60 0), .op .number, .num (.fin 5 0),
   .op .number, .num (.fin 4 0), .op (.builtin .add), .op (.builtin .add),
   .op .jump, .pc 14,
   .op .number, .num (.fin 400 0), .op .number, .num (.fin 10 0),
   .op .number, .num (.fin 5 0), .op .number, .num (.fin 5 0),
   .op (.builtin .add), .op (.builtin .add), .op (.builtin .add),
   .op .nop, .op .number, .num (.fin 2 0), .op (.builtin .mul),
   .op .number, .num (.fin 4 0), .op (.builtin .div),
   .op .number, .num (.fin 2 0), .op (.builtin .mul), .op .halt]

/-- Name consisting of exactly 64 octets. -/
def c9Name : String := String.mk (List.replicate 64 'a')

/-- Definition of a user word whose name has exactly 64 octets. -/
def c9Src : String := ": " ++ c9Name ++ " ;"

/-- Definition attempt with a 65-octet word name. -/
def c9Src65 : String := ": " ++ String.mk (List.replicate 65 'a') ++ " ;"

/-- Tokenized state of the 64-octet-name definition. -/
def c9Tok : Ctx :=
  { words := (c9Name, .user []) :: initWords, defining := some " ",
    defCode := [], jstack := [] }

/-! Claim theorems. -/

/-- A block extended with slots free of the `op_eval_code` callback keeps
that freedom. -/
theorem noeval_append {l1 l2 : List Slot} (h1 : Slot.op .evalCode ∉ l1)
    (h2 : Slot.op .evalCode ∉ l2) : Slot.op .evalCode ∉ l1 ++ l2 := by
  intro hm
  rcases List.mem_append.mp hm with h | h
  · exact h1 h
  · exact h2 h

/-- A singleton block whose cell is not the `op_eval_code` callback. -/
theorem noeval_singleton {s : Slot} (h : s ≠ Slot.op .evalCode) :
    Slot.op .evalCode ∉ [s] := by
  intro hm
  exact h (List.mem_singleton.mp hm).symm

/-- A two-cell block free of the `op_eval_code` callback. -/
theorem noeval_pair {a b : Slot} (h1 : a ≠ Slot.op .evalCode)
    (h2 : b ≠ Slot.op .evalCode) : Slot.op .evalCode ∉ [a, b] := by
  intro hm
  rcases List.mem_cons.mp hm with h | h
  · exact h1 h.symm
  · exact h2 (List.mem_singleton.mp h).symm

/-- Back-patching a pc immediate never introduces an `op_eval_code`
cell. -/
theorem noeval_set {l : List Slot} {i n : ℕ} (h : Slot.op .evalCode ∉ l) :
    Slot.op .evalCode ∉ l.set i (.pc n) := by
  intro hm
  rcases List.mem_or_eq_of_mem_set hm with hmem | heq
  · exact h hmem
  · exact absurd heq (by simp)

/-- A word found in a clean word table has a clean body. -/
theorem findWord_wordsOk {ws : List (String × Word)} {nm : String}
    {c : List Slot} (hws : wordsOk ws = true)
    (h : findWord ws nm = some (.user c)) : noEvalImms c = true := by
  induction ws with
  | nil => simp [findWord] at h
  | cons p t ih =>
    obtain ⟨n, w⟩ := p
    rw [show findWord ((n, w) :: t) nm
        = if n = nm then some w else findWord t nm from rfl] at h
    simp only [wordsOk, List.all_cons, Bool.and_eq_true] at hws
    split at h
    · cases h
      exact hws.1
    · exact ih hws.2 h

/-- One `inline_calls_code` invocation never appends the `op_eval_code`
callback: every copied opcode cell is a different callback, copied
immediates are clean by hypothesis, patches write pc cells, and the
nested invocations are clean by the `recurse` hypothesis. -/
theorem inlineLoop_no_eval (ws : List (String × Word))
    (recurse : List Slot → List Slot → Option (List Slot))
    (hws : wordsOk ws = true)
    (hrec : ∀ c a r', noEvalImms c = true → Slot.op .evalCode ∉ a →
      recurse c a = some r' → Slot.op .evalCode ∉ r') :
    ∀ orig acc js, noEvalImms orig = true → Slot.op .evalCode ∉ acc →
      ∀ res, inlineLoop ws recurse orig acc js = some res →
      Slot.op .evalCode ∉ res := by
  intro orig acc js
  induction orig, acc, js using inlineLoop.induct ws recurse with
  | case1 acc js =>
    intro _ ha res h
    simp only [inlineLoop] at h
    cases h
    exact ha
  | case2 acc js nm rest' c hfind acc' hrec' ih =>
    intro ho ha res h
    simp only [inlineLoop, hfind, hrec'] at h
    simp only [noEvalImms] at ho
    exact ih ho (hrec c acc acc' (findWord_wordsOk hws hfind) ha hrec') res h
  | case3 acc js nm rest' c hfind hrec' =>
    intro _ _ res h
    simp only [inlineLoop, hfind, hrec'] at h
    cases h
  | case4 acc js nm rest' hfind =>
    intro _ _ res h
    simp only [inlineLoop] at h
    rcases hw : findWord ws nm with _ | w
    · simp [hw] at h
    · rcases w with cd | b | cb
      · exact absurd hw (fun hh => hfind cd hh)
      · simp [hw] at h
      · simp [hw] at h
  | case5 rest acc js hne =>
    intro _ _ res h
    rcases rest with _ | ⟨s, rest'⟩
    · simp only [inlineLoop] at h
      cases h
    · rcases s with o | v | n | nm
      · simp only [inlineLoop] at h
        cases h
      · simp only [inlineLoop] at h
        cases h
      · simp only [inlineLoop] at h
        cases h
      · exact (hne _ _ rfl).elim
  | case6 rest acc js hlen =>
    intro _ _ res h
    rcases rest with _ | ⟨s, rest'⟩ <;>
      simp only [inlineLoop, if_pos hlen] at h <;> cases h
  | case7 acc js acc' hlen imm rest' ih =>
    intro ho ha res h
    simp only [inlineLoop, if_neg hlen] at h
    simp only [noEvalImms, Bool.and_eq_true, decide_eq_true_eq] at ho
    refine ih ho.2 ?_ res h
    exact noeval_append (noeval_append ha (noeval_singleton (by simp)))
      (noeval_singleton ho.1)
  | case8 acc js hlen =>
    intro _ _ res h
    simp only [inlineLoop, if_neg hlen] at h
    cases h
  | case9 rest acc =>
    intro _ _ res h
    rcases rest with _ | ⟨s, rest'⟩ <;> simp only [inlineLoop] at h <;> cases h
  | case10 rest acc i js' hlen =>
    intro _ _ res h
    rcases rest with _ | ⟨s, rest'⟩ <;>
      simp only [inlineLoop, if_pos hlen] at h <;> cases h
  | case11 acc acc' i js' acc'' hlen imm rest' ih =>
    intro ho ha res h
    simp only [inlineLoop, if_neg hlen] at h
    simp only [noEvalImms, Bool.and_eq_true, decide_eq_true_eq] at ho
    refine ih ho.2 ?_ res h
    exact noeval_append (noeval_set (noeval_append ha
      (noeval_singleton (by simp)))) (noeval_singleton ho.1)
  | case12 acc i js' hlen =>
    intro _ _ res h
    simp only [inlineLoop, if_neg hlen] at h
    cases h
  | case13 rest acc =>
    intro _ _ res h
    simp only [inlineLoop] at h
    cases h
  | case14 rest acc acc' i js' ih =>
    intro ho ha res h
    simp only [inlineLoop] at h
    simp only [noEvalImms] at ho
    exact ih ho (noeval_set (noeval_append ha
      (noeval_singleton (by simp)))) res h
  | case15 acc js imm rest' ih =>
    intro ho ha res h
    simp only [inlineLoop] at h
    simp only [noEvalImms, Bool.and_eq_true, decide_eq_true_eq] at ho
    refine ih ho.2 ?_ res h
    exact noeval_append ha (noeval_pair (by simp) ho.1)
  | case16 acc js =>
    intro _ _ res h
    simp only [inlineLoop] at h
    cases h
  | case17 s rest acc js h1 h2 h3 h4 h5 ih =>
    intro ho ha res h
    rcases s with o | v | n | nm
    · rcases o with _ | _ | _ | _ | _ | _ | b
      · exact absurd rfl h5
      · exact absurd rfl h2
      · exact absurd rfl h3
      · exact absurd rfl h4
      · simp only [inlineLoop] at h
        simp only [noEvalImms] at ho
        exact ih ho (noeval_append ha (noeval_singleton (by simp))) res h
      · exact absurd rfl h1
      · simp only [inlineLoop] at h
        simp only [noEvalImms] at ho
        exact ih ho (noeval_append ha (noeval_singleton (by simp))) res h
    · simp only [inlineLoop] at h
      simp only [noEvalImms] at ho
      exact ih ho (noeval_append ha (noeval_singleton (by simp))) res h
    · simp only [inlineLoop] at h
      simp only [noEvalImms] at ho
      exact ih ho (noeval_append ha (noeval_singleton (by simp))) res h
    · simp only [inlineLoop] at h
      simp only [noEvalImms] at ho
      exact ih ho (noeval_append ha (noeval_singleton (by simp))) res h

/-- The inliner's output contains no `op_eval_code` callback, at any
recursion budget. -/
theorem inlineCode_no_eval (ws : List (String × Word))
    (hws : wordsOk ws = true) :
    ∀ (fuel : ℕ) (orig acc js res), noEvalImms orig = true →
      Slot.op .evalCode ∉ acc → inlineCode ws fuel orig acc js = some res →
      Slot.op .evalCode ∉ res := by
  intro fuel
  induction fuel with
  | zero =>
    intro orig acc js res _ _ h
    simp [inlineCode] at h
  | succ fuel ih =>
    intro orig acc js res ho ha h
    exact inlineLoop_no_eval ws (fun c a => inlineCode ws fuel c a []) hws
      (fun c a r' hc hna hr => ih c a [] r' hc hna hr) orig acc js ho ha res h

/-- C1: evaluation of the code at the failing input.  The claim states
that `0 if 1 else 2 then` runs to final D = `[2.0]`; the code compiles
it to `c1Code0`, whose `jump_if` immediate 8 resolves to slot 10 (the
`nop`) instead of slot 8 (the start of the else branch), because the
inliner patches it to `len + i - 2` (forth.c:773) instead of
`len - i + 2`; running it leaves D empty.  The second program
`1 if 1 else 2 then` takes the fall-through arm and yields `[1.0]` as
the claim states. -/
theorem c1_if_else_jump_eval :
    (forthParseString initCtx "0 if 1 else 2 then").bind mainCode
        = some c1Code0 ∧
    runCode 100 c1Code0 0 ⟨.fin 0 0⟩ [] [] = some ([], []) ∧
    (forthParseString initCtx "1 if 1 else 2 then").bind mainCode
        = some c1Code1 ∧
    runCode 100 c1Code1 0 ⟨.fin 0 0⟩ [] [] = some ([.fin 1 0], []) := by
  refine ⟨?_, by decide, ?_, by decide⟩
  · have h : parseLoop ("0 if 1 else 2 then".data.length + 1)
        { initCtx with jstack := [] } "0 if 1 else 2 then".data
        = some c1Tok0 := by decide
    simp only [forthParseString]
    rw [h]
    decide
  · have h : parseLoop ("1 if 1 else 2 then".data.length + 1)
        { initCtx with jstack := [] } "1 if 1 else 2 then".data
        = some c1Tok1 := by decide
    simp only [forthParseString]
    rw [h]
    decide

/-- C2: evaluation of the code at the failing input.  The program
`0 0 0 0 0 0 if 1 else 2 then` is accepted by `forth_parse_string`, and
its final main block of 22 slots carries a `jump_if` at slot 12 whose
immediate 28 resolves — exactly as the interpreter resolves it, to slot
`12 + 28 = 40` — outside the block, contradicting the claimed
invariant. -/
theorem c2_branch_target_escapes :
    (forthParseString initCtx "0 0 0 0 0 0 if 1 else 2 then").bind mainCode
        = some c2Code ∧
    c2Code.get? 12 = some (.op .jumpIf) ∧
    c2Code.get? 13 = some (.pc 28) ∧
    c2Code.length = 22 ∧
    c2Code.length ≤ 12 + 28 := by
  refine ⟨?_, by decide, by decide, by decide, by decide⟩
  have h : parseLoop ("0 0 0 0 0 0 if 1 else 2 then".data.length + 1)
      { initCtx with jstack := [] } "0 0 0 0 0 0 if 1 else 2 then".data
      = some c2Tok := by decide
  simp only [forthParseString]
  rw [h]
  decide

/-- C3 counterexample: with `vars.x = 0` the sample program runs to
final D = `[420.0]`, not `[210.0]` as the claim states (juanita leaves
420 and `2 * 4 / 2 *` maps 420 to 420). -/
theorem c3_x0_runs_to_420 :
    (forthParseString initCtx c3Src).bind mainCode = some c3Code ∧
    runCode 100 c3Code 0 ⟨.fin 0 0⟩ [] [] = some ([.fin 420 0], []) ∧
    ¬ runCode 100 c3Code 0 ⟨.fin 0 0⟩ [] [] = some ([.fin 210 0], []) := by
  refine ⟨?_, by decide, by decide⟩
  have h : parseLoop (c3Src.data.length + 1)
      { initCtx with jstack := [] } c3Src.data = some c3Tok := by decide
  simp only [forthParseString]
  rw [h]
  decide

/-- C3 as amended: parsing the sample program succeeds, and running the
final block leaves D = `[420.0]` for `vars.x = 0` and D = `[69.0]` for
`vars.x = 1`. -/
theorem c3_sample_program_eval :
    (forthParseString initCtx c3Src).bind mainCode = some c3Code ∧
    runCode 100 c3Code 0 ⟨.fin 0 0⟩ [] [] = some ([.fin 420 0], []) ∧
    runCode 100 c3Code 0 ⟨.fin 1 0⟩ [] [] = some ([.fin 69 0], []) := by
  refine ⟨?_, by decide, by decide⟩
  have h : parseLoop (c3Src.data.length + 1)
      { initCtx with jstack := [] } c3Src.data = some c3Tok := by decide
  simp only [forthParseString]
  rw [h]
  decide

/-- C6: the runtime `/` builtin pushes positive infinity whenever the
divisor (top of D) is exactly zero, for every dividend value, and the
program `1 0 /` compiles unfolded and runs to final D = `[+inf]`. -/
theorem c6_division_by_zero_inf :
    (∀ (x : FVal) (t r : List FVal) (v : Vars),
      execBi .div v (.fin 0 0 :: x :: t) r = some (.inf :: t, r)) ∧
    (forthParseString initCtx "1 0 /").bind mainCode = some c6Code ∧
    runCode 100 c6Code 0 ⟨.fin 0 0⟩ [] [] = some ([.inf], []) := by
  refine ⟨fun x t r v => rfl, ?_, by decide⟩
  have h : parseLoop ("1 0 /".data.length + 1)
      { initCtx with jstack := [] } "1 0 /".data = some c6Tok := by decide
  simp only [forthParseString]
  rw [h]
  decide

/-- C7 counterexample: `peephole_n` never folds `/` over two constant
pushes.  With pushes of 1 and 3 (and with 1 and 0, the claimed
plus-infinity case) the `/` rule does not match and the driver emits the
instructions unchanged, instead of folding them to a single push as the
claim states. -/
theorem c7_div_fold_is_dead :
    peepholeN [.op .number, .num (.fin 1 0), .op .number, .num (.fin 3 0)]
      .div = none ∧
    peepholeN [.op .number, .num (.fin 1 0), .op .number, .num (.fin 0 0)]
      .div = none ∧
    peepholeRun [.op .number, .num (.fin 1 0), .op .number, .num (.fin 3 0),
        .op (.builtin .div), .op .halt]
      = ([.op .number, .num (.fin 1 0), .op .number, .num (.fin 3 0),
        .op (.builtin .div), .op .halt], false) := by
  refine ⟨by decide, by decide, by decide⟩

/-- C8 counterexample: after the peephole passes, the stream compiled
from `2 pi *` is `push_number 2.0` followed by the fused ` multpi` (and
`halt`), not a single `push_number` of 2·pi. -/
theorem c8_stream_keeps_multpi :
    (forthParseString initCtx "2 pi *").bind mainCode = some c8Code ∧
    c8Code ≠ [.op .number, .num (.fin 0 2), .op .halt] := by
  refine ⟨?_, by decide⟩
  have h : parseLoop ("2 pi *".data.length + 1)
      { initCtx with jstack := [] } "2 pi *".data = some c8Tok := by decide
  simp only [forthParseString]
  rw [h]
  decide

/-- C8 as amended: the stream after peephole is `push_number 2.0`, the
fused ` multpi`, `halt`; running it leaves final D = `[2·pi]`. -/
theorem c8_two_pi_eval :
    (forthParseString initCtx "2 pi *").bind mainCode = some c8Code ∧
    runCode 100 c8Code 0 ⟨.fin 0 0⟩ [] [] = some ([.fin 0 2], []) := by
  refine ⟨?_, by decide⟩
  have h : parseLoop ("2 pi *".data.length + 1)
      { initCtx with jstack := [] } "2 pi *".data = some c8Tok := by decide
  simp only [forthParseString]
  rw [h]
  decide

/-- C4 counterexample: a program whose tracked D occupancy reaches the
full capacity 32 after its 32nd push is accepted by the checker (and by
the whole pipeline), because `op_number` steps are not followed by a
capacity test; the claim states any such program is rejected. -/
theorem c4_transient_32_accepted :
    checkEffects (numPairs 32 ++ [.op (.builtin .drop), .op .halt]) 0 0
      = true ∧
    (forthParseString initCtx c4Src).isSome = true := by
  refine ⟨by decide, ?_⟩
  have h : parseLoop (c4Src.data.length + 1)
      { initCtx with jstack := [] } c4Src.data = some c4Tok := by decide
  simp only [forthParseString]
  rw [h]
  decide

/-- The checker walks a run of `(op_number, value)` pairs by
incrementing the D counter once per pair, with no intermediate bounds
test. -/
theorem checkEffects_numPairs (k : ℕ) (s : Slot) (rest : List Slot)
    (d r : Int) :
    checkEffects (numPairs k ++ s :: rest) d r
      = checkEffects (s :: rest) (d + k) r := by
  induction k generalizing d with
  | zero => simp [numPairs]
  | succ k ih =>
    rw [show numPairs (k + 1) ++ s :: rest
        = .op .number :: .num (.fin 1 0) :: (numPairs k ++ s :: rest) by
      simp [numPairs]]
    rw [show checkEffects
          (.op .number :: .num (.fin 1 0) :: (numPairs k ++ s :: rest)) d r
        = checkEffects (numPairs k ++ s :: rest) (d + 1) r from rfl]
    rw [ih (d + 1)]
    congr 1
    push_cast
    ring

/-- C4 as amended: the checker enforces the strict 32-slot capacity
bound only after ordinary-builtin steps and at the end of the block,
never after an `op_number` step, so the tracked occupancy may reach the
full capacity 32 transiently through number pushes; a block of `k ≥ 1`
pushes followed by one `drop` is accepted exactly when `k ≤ 32` — the
bound is first enforced after the `drop`, where the occupancy is
`k - 1`. -/
theorem c4_no_capacity_check_after_push (k : ℕ) (hk : 1 ≤ k) :
    (checkEffects (numPairs k ++ [.op (.builtin .drop), .op .halt]) 0 0
      = true) ↔ k ≤ 32 := by
  rw [checkEffects_numPairs k _ _ 0 0]
  simp only [checkEffects, finalCheck, Bi.dPops, Bi.dPushes, Bi.rPops,
    Bi.rPushes, decide_eq_true_eq]
  split_ifs <;> simp_all <;> omega

/-- Witness for the amended C4 at `k = 32`: the checker accepts the
block whose occupancy transiently reaches the full capacity. -/
theorem c4_no_capacity_check_after_push_witness :
    (checkEffects (numPairs 32 ++ [.op (.builtin .drop), .op .halt]) 0 0
      = true) ↔ (32 : ℕ) ≤ 32 :=
  c4_no_capacity_check_after_push 32 (by decide)

/-- C5: the main code block contains no call-user-word (`op_eval_code`)
instruction after the inlining phase completes.  `inline_calls`
(forth.c:801-815) calls the inliner with the parsed main block, a fresh
output block and the recursion budget 100; for every word table whose
user words are well-formed in the sense of `wordsOk` and every
well-formed block — as all parser-produced blocks are, since
`found_word` and the compile-time builtins only ever emit number, pc or
code-reference cells into immediate slots — a successful run yields a
block without any `op_eval_code` cell. -/
theorem c5_inlined_main_has_no_user_word_calls (ws : List (String × Word))
    (orig res : List Slot) (hws : wordsOk ws = true)
    (ho : noEvalImms orig = true)
    (h : inlineCode ws 100 orig [] [] = some res) :
    Slot.op .evalCode ∉ res :=
  inlineCode_no_eval ws hws 100 orig [] [] res ho (by simp) h

/-- Witness for C5 on the sample program's main block, whose inlined
form `c3Inlined` is evaluated concretely. -/
theorem c5_inlined_main_has_no_user_word_calls_witness :
    Slot.op .evalCode ∉ c3Inlined :=
  c5_inlined_main_has_no_user_word_calls c3Tok.words
    (c3Tok.defCode ++ [.op .halt]) c3Inlined (by decide) (by decide)
    (by decide)

/-- C7 as amended: the general constant-fold rule for `/` in
`peephole_n` is dead code — the earlier rule for the constant divisor
`2.0` is tested first in the same `else if` chain and, when its guard
fails, the chain is exited — so the only rewrite `peephole_n` ever
performs for `/` replaces a trailing `(push_number, 2.0)` pair with the
fused ` div2` builtin; constant operands are never folded to their
quotient. -/
theorem c7_div_rule_only_div2 (code out : List Slot)
    (h : peepholeN code .div = some out) :
    ∃ init, code = init ++ [Slot.op .number, Slot.num (.fin 2 0)] ∧
      out = init ++ [Slot.op (.builtin .div2)] := by
  simp only [peepholeN] at h
  split_ifs at h with hp
  obtain ⟨hp1, hp2⟩ := hp
  have hn : 2 ≤ code.length := by
    match code, hp1, hp2 with
    | [], hp1, _ => simp at hp1
    | [a], hp1, hp2 =>
      simp at hp1 hp2
      rw [hp1] at hp2
      exact absurd hp2 (by simp)
    | a :: b :: t, _, _ => simp
  refine ⟨code.take (code.length - 2), ?_, (Option.some.inj h).symm⟩
  have hlen : (code.drop (code.length - 2)).length = 2 := by
    rw [List.length_drop]
    omega
  have h0 : (code.drop (code.length - 2)).get? 0
      = some (Slot.op .number) := by
    rw [List.get?_drop]
    simpa using hp1
  have h1 : (code.drop (code.length - 2)).get? 1
      = some (Slot.num (.fin 2 0)) := by
    rw [List.get?_drop, show code.length - 2 + 1 = code.length - 1 by omega]
    exact hp2
  have hdrop : code.drop (code.length - 2)
      = [Slot.op .number, Slot.num (.fin 2 0)] := by
    match hd : code.drop (code.length - 2), hlen, h0, h1 with
    | [a, b], _, h0, h1 =>
      simp at h0 h1
      rw [h0, h1]
  conv_lhs => rw [← List.take_append_drop (code.length - 2) code]
  rw [hdrop]

/-- Witness for the amended C7: the rewrite fires on a block ending in a
constant push of 2.0 and produces the fused ` div2`. -/
theorem c7_div_rule_only_div2_witness :
    ∃ init, [Slot.op .number, Slot.num (.fin 5 0), Slot.op .number,
        Slot.num (.fin 2 0)]
      = init ++ [Slot.op .number, Slot.num (.fin 2 0)] ∧
      [Slot.op .number, Slot.num (.fin 5 0), Slot.op (.builtin .div2)]
      = init ++ [Slot.op (.builtin .div2)] :=
  c7_div_rule_only_div2 _ _ (by decide)

/-- C9: `found_word` rejects every token longer than 64 octets
(forth.c:683-687), a 64-octet token is accepted as a new user-word name,
and the same definition with a 65-octet name fails to parse. -/
theorem c9_token_length_limit :
    (∀ (ctx : Ctx) (rest tok : List Char), 64 < tok.length →
      foundWord ctx rest tok = none) ∧
    (forthParseString initCtx c9Src).isSome = true ∧
    forthParseString initCtx c9Src65 = none := by
  refine ⟨?_, ?_, by decide⟩
  · intro ctx rest tok h
    unfold foundWord
    rw [if_pos h]
  · have h : parseLoop (c9Src.data.length + 1)
        { initCtx with jstack := [] } c9Src.data = some c9Tok := by decide
    simp only [forthParseString]
    rw [h]
    decide

/-- Witness for C9's universal part at a concrete 65-octet token. -/
theorem c9_token_length_limit_witness :
    64 < (List.replicate 65 'a').length ∧
    foundWord initCtx [] (List.replicate 65 'a') = none :=
  ⟨by decide, c9_token_length_limit.1 initCtx [] _ (by decide)⟩

/-- C10: the `\` compile-time word fails when no newline remains in the
input and the `(` word fails when no `)` remains (their `strchr` returns
NULL, forth.c:914-924), and `forth_parse_string` therefore reports
failure instead of treating the remainder as a comment. -/
theorem c10_unterminated_comment_fails :
    (∀ (ctx : Ctx) (rest : List Char), '\n' ∉ rest →
      runCompiler .backslash ctx rest = none) ∧
    (∀ (ctx : Ctx) (rest : List Char), ')' ∉ rest →
      runCompiler .paren ctx rest = none) ∧
    forthParseString initCtx "1 2 \\ no newline" = none ∧
    forthParseString initCtx "1 2 ( no closing paren" = none := by
  refine ⟨?_, ?_, by decide, by decide⟩
  · intro ctx rest hn
    simp only [runCompiler]
    rw [List.dropWhile_eq_nil_iff.mpr ?_]
    intro x hx
    have hne : x ≠ '\n' := fun he => hn (he ▸ hx)
    simp [hne]
  · intro ctx rest hn
    simp only [runCompiler]
    rw [List.dropWhile_eq_nil_iff.mpr ?_]
    intro x hx
    have hne : x ≠ ')' := fun he => hn (he ▸ hx)
    simp [hne]

/-- Witness for C10's universal parts on concrete comment bodies. -/
theorem c10_unterminated_comment_fails_witness :
    ('\n' ∉ " no newline anywhere".data ∧
      runCompiler .backslash initCtx " no newline anywhere".data = none) ∧
    (')' ∉ " never closed".data ∧
      runCompiler .paren initCtx " never closed".data = none) :=
  ⟨⟨by decide, c10_unterminated_comment_fails.1 initCtx _ (by decide)⟩,
   ⟨by decide, c10_unterminated_comment_fails.2.1 initCtx _ (by decide)⟩⟩

end Forth
